import Mathlib

/-!
# Verification of the Recommender-System client and engine model

This file embeds, in Lean 4, the browser client of the recommender system
(`src/client/src/App.jsx`) and — since the FastAPI engine sources are not part
of the repository snapshot — a model of the recommendation engine built from
the system specification (`spec.md`).  Theorems at the end of the file settle
the specification claims against these definitions.
-/

/-! ## JavaScript number semantics

The client computes `videoProgress = (video.currentTime / video.duration) * 100`
and sends `Math.round(watchedPercent)`.  JavaScript numbers are IEEE doubles:
division by zero produces `Infinity`/`NaN`, and those values propagate through
multiplication and `Math.round`.  We model the values reachable in this code
path exactly: a finite number (idealised as a rational), `NaN`, or a signed
infinity. -/

/-- A JavaScript number as it appears in the client's progress computation:
finite (modelled exactly by a rational), `NaN`, or `Infinity` with a sign
(`true` = positive). -/
inductive JSNum : Type where
  | num : ℚ → JSNum
  | nan : JSNum
  | inf : Bool → JSNum
  deriving DecidableEq

namespace JSNum

/-- IEEE division as performed by the `/` operator in JavaScript:
`x / 0` is `NaN` when `x = 0` and a signed infinity otherwise (the zero
denominator carries sign `+0`); any `NaN` operand propagates; a finite
number divided by infinity is `0`; `Infinity / Infinity` is `NaN`. -/
def jsDiv : JSNum → JSNum → JSNum
  | num a, num b =>
      if b = 0 then (if a = 0 then nan else inf (decide (0 < a)))
      else num (a / b)
  | nan, _ => nan
  | _, nan => nan
  | inf s, num b => if b = 0 then inf s else inf (s == decide (0 ≤ b))
  | num _, inf _ => num 0
  | inf _, inf _ => nan

/-- IEEE multiplication as performed by the `*` operator in JavaScript:
`NaN` propagates, `Infinity * 0` is `NaN`, and otherwise infinities
multiply signs. -/
def jsMul : JSNum → JSNum → JSNum
  | num a, num b => num (a * b)
  | nan, _ => nan
  | _, nan => nan
  | inf s, num b => if b = 0 then nan else inf (s == decide (0 < b))
  | num a, inf s => if a = 0 then nan else inf (s == decide (0 < a))
  | inf s, inf t => inf (s == t)

/-- Model of `Math.round`: for a finite number, round half towards positive infinity
(`Math.round x = ⌊x + 1/2⌋`); `NaN` and infinities are returned unchanged. -/
def jsRound : JSNum → JSNum
  | num a => num (⌊a + 1 / 2⌋ : ℤ)
  | nan => nan
  | inf s => inf s

/-- The number is finite and lies in the interval `[0, 100]`. -/
def inPercentRange : JSNum → Prop
  | num a => 0 ≤ a ∧ a ≤ 100
  | nan => False
  | inf _ => False

instance : DecidablePred inPercentRange := fun x => by
  cases x <;> simp [inPercentRange] <;> infer_instance

end JSNum

/-! ## Client model (`src/client/src/App.jsx`) -/

/-- The progress computation of `updateProgress` in `App.jsx`:
`const progress = (video.currentTime / video.duration) * 100`. -/
def videoProgressOf (currentTime duration : JSNum) : JSNum :=
  JSNum.jsMul (JSNum.jsDiv currentTime duration) (JSNum.num 100)

/-- The body object the client posts to `POST /interaction` in
`sendInteraction`: exactly the five fields
`userId`, `videoId`, `watched_percent`, `liked`, `whenReacted`. -/
structure InteractionBody : Type where
  userId : ℕ
  videoId : ℕ
  watched_percent : JSNum
  liked : ℤ
  whenReacted : JSNum
  deriving DecidableEq

/-- The body constructed by `sendInteraction(videoId, liked, watchedPercent)`:
both percent fields are `Math.round(watchedPercent)`. -/
def sendInteractionBody (userId videoId : ℕ) (liked : ℤ) (watchedPercent : JSNum) :
    InteractionBody :=
  ⟨userId, videoId, JSNum.jsRound watchedPercent, liked, JSNum.jsRound watchedPercent⟩

/-- The per-video record the client keeps in the `userInteractions` state:
`{ liked, watchedPercent }` (the raw, un-rounded progress value). -/
structure InteractionEntry : Type where
  liked : ℤ
  watchedPercent : JSNum
  deriving DecidableEq

/-- The `userInteractions` React state: a partial map from video id to the
recorded entry (`undefined` for videos never interacted with). -/
def InteractionState : Type := ℕ → Option InteractionEntry

/-- The `liked` value recorded for a video, when present
(`userInteractions[videoId]?.liked`). -/
def likedOf (st : InteractionState) (videoId : ℕ) : Option ℤ :=
  (st videoId).map InteractionEntry.liked

/-- The effect of `sendInteraction` on the `userInteractions` state: when the
`POST /interaction` request succeeds the entry for `videoId` is replaced by
`{ liked, watchedPercent }`; when it fails (the `catch` branch) the state is
left unchanged. -/
def sendInteractionState (st : InteractionState) (videoId : ℕ) (liked : ℤ)
    (watchedPercent : JSNum) (success : Bool) : InteractionState :=
  if success then
    fun v => if v = videoId then some ⟨liked, watchedPercent⟩ else st v
  else st

/-- The `liked` value `handleLike` sends: `isLiked ? 0 : 1` where
`isLiked = userInteractions[id]?.liked === 1`. -/
def handleLikeSent (st : InteractionState) (videoId : ℕ) : ℤ :=
  if likedOf st videoId = some 1 then 0 else 1

/-- The `liked` value `handleDislike` sends: `isDisliked ? 0 : -1` where
`isDisliked = userInteractions[id]?.liked === -1`. -/
def handleDislikeSent (st : InteractionState) (videoId : ℕ) : ℤ :=
  if likedOf st videoId = some (-1) then 0 else -1

/-- The state after a like-button press whose interaction request succeeds
(or fails, per `success`). -/
def handleLikeStep (st : InteractionState) (videoId : ℕ) (progress : JSNum)
    (success : Bool) : InteractionState :=
  sendInteractionState st videoId (handleLikeSent st videoId) progress success

/-- The state after a dislike-button press whose interaction request succeeds
(or fails, per `success`). -/
def handleDislikeStep (st : InteractionState) (videoId : ℕ) (progress : JSNum)
    (success : Bool) : InteractionState :=
  sendInteractionState st videoId (handleDislikeSent st videoId) progress success

/-- The three `<option>` values of the algorithm selector in `App.jsx`. -/
def algorithmOptionValues : List String := ["hybrid", "twoTower", "bandit"]

/-- The initial value of the `selectedAlgorithm` state:
`useState("hybrid")`. -/
def initialSelectedAlgorithm : String := "hybrid"

/-- The default parameter of `fetchRecommendations(algorithm = "hybrid")`. -/
def defaultFetchAlgorithm : String := "hybrid"

/-- The values the `selectedAlgorithm` state can ever hold: its initial value,
or a value assigned by the selector's `onChange` from one of its option
values. -/
inductive SelectedAlgorithmReachable : String → Prop where
  | initial : SelectedAlgorithmReachable initialSelectedAlgorithm
  | selected (s : String) (h : s ∈ algorithmOptionValues) : SelectedAlgorithmReachable s

/-- The request path `fetchRecommendations` builds:
`/recommend/${algorithm}/${userId}`. -/
def recommendPath (algorithm : String) (userId : ℕ) : String :=
  "/recommend/" ++ algorithm ++ "/" ++ toString userId

/-- One recommendation entry as returned by the server:
`{videoId, score, reason}`. -/
structure RecResponseEntry : Type where
  videoId : ℕ
  score : ℚ
  reason : String
  deriving DecidableEq

/-- The per-video statistics returned by `GET /video/{videoId}/stats`. -/
structure VideoStats : Type where
  likes : ℕ
  comments : ℕ
  shares : ℕ
  views : ℕ
  avg_watch_percent : ℚ
  completion_rate : ℚ
  deriving DecidableEq

/-- The video object `fetchRecommendations` builds for the feed. -/
structure VideoObject : Type where
  id : ℕ
  title : String
  score : ℚ
  reason : String
  algorithm : String
  videoUrl : String
  author : String
  likes : ℕ
  comments : ℕ
  shares : ℕ
  views : ℕ
  avgWatchPercent : ℚ
  completionRate : ℚ
  deriving DecidableEq

/-- How `fetchRecommendations` turns one recommendation entry into a video
object: on a successful stats request the stats fields are copied; when the
stats request fails (`catch` branch) the entry is kept with all statistics
fields set to `0`. -/
def buildVideoObject (algorithmLabel : String) (statsOf : ℕ → Option VideoStats)
    (rec : RecResponseEntry) : VideoObject :=
  match statsOf rec.videoId with
  | some s =>
      ⟨rec.videoId, "Story " ++ toString rec.videoId, rec.score, rec.reason,
        algorithmLabel, "/videos/" ++ toString rec.videoId ++ ".mp4", "StoryBot",
        s.likes, s.comments, s.shares, s.views, s.avg_watch_percent,
        s.completion_rate⟩
  | none =>
      ⟨rec.videoId, "Story " ++ toString rec.videoId, rec.score, rec.reason,
        algorithmLabel, "/videos/" ++ toString rec.videoId ++ ".mp4", "StoryBot",
        0, 0, 0, 0, 0, 0⟩

/-- The list of video objects `fetchRecommendations` appends to the feed:
one per recommendation entry, via `Promise.all` over `recommendations.map`. -/
def fetchVideoObjects (algorithmLabel : String) (statsOf : ℕ → Option VideoStats)
    (recommendations : List RecResponseEntry) : List VideoObject :=
  recommendations.map (buildVideoObject algorithmLabel statsOf)

/-! ## Engine model

The recommendation engine itself (`server.py`, `two_tower_model.py`,
`hybrid_model.py`, `bandit_model.py`) is not included in the repository
snapshot — only its API documentation and README are.  The definitions in this
section are therefore modelled from the system specification (`spec.md`
sections 3–4 and 7–8); each doc comment records what is being modelled. -/

/-- One recommendation entry produced by a model: `{videoId, score, reason}`,
with the score type kept generic so that the ranking logic can be studied over
exact rationals and the similarity scoring over the reals. -/
structure RecEntry (α : Type) : Type where
  videoId : ℕ
  score : α
  reason : String
  deriving DecidableEq

/-- Ranking relation: `a` ranks no worse than `b` under a sort key `s` (higher first) with ties
broken by lower id `i` — the ordering the specification prescribes for
recommendation lists ("top 5 by score descending, ties broken by lower
videoId"). -/
def rankedBefore {α β : Type} [LinearOrder α] (s : β → α) (i : β → ℕ) (a b : β) : Prop :=
  s b < s a ∨ (s a = s b ∧ i a ≤ i b)

instance {α β : Type} [LinearOrder α] (s : β → α) (i : β → ℕ) :
    DecidableRel (rankedBefore s i) := fun a b => by
  unfold rankedBefore; infer_instance

instance {α β : Type} [LinearOrder α] (s : β → α) (i : β → ℕ) :
    IsTotal β (rankedBefore s i) where
  total a b := by
    unfold rankedBefore
    rcases lt_trichotomy (s a) (s b) with h | h | h
    · exact Or.inr (Or.inl h)
    · rcases Nat.le_total (i a) (i b) with h2 | h2
      · exact Or.inl (Or.inr ⟨h, h2⟩)
      · exact Or.inr (Or.inr ⟨h.symm, h2⟩)
    · exact Or.inl (Or.inl h)

instance {α β : Type} [LinearOrder α] (s : β → α) (i : β → ℕ) :
    IsTrans β (rankedBefore s i) where
  trans a b c hab hbc := by
    unfold rankedBefore at *
    rcases hab with h1 | ⟨h1, h1'⟩
    · rcases hbc with h2 | ⟨h2, _⟩
      · exact Or.inl (h2.trans h1)
      · exact Or.inl (h2 ▸ h1)
    · rcases hbc with h2 | ⟨h2, h2'⟩
      · exact Or.inl (h1 ▸ h2)
      · exact Or.inr ⟨h1.trans h2, h1'.trans h2'⟩

/-- Modelled from the spec (§4.3): `TwoTowerModel.recommend(userId)`.  If the
model is unfitted or the user has no embedding, the 5 highest-`views` videos
are returned with reason "Cold start: popularity fallback" and score 0;
otherwise all candidate videos are scored, and the top 5 by score descending
(ties broken by lower videoId) are returned with reason
"Two Tower neural embedding similarity". -/
def twoTowerRecommend {α : Type} [LinearOrderedField α] (fitted hasUserEmbedding : Bool)
    (score : ℕ → α) (views : ℕ → ℕ) (videoIds : List ℕ) : List (RecEntry α) :=
  if fitted && hasUserEmbedding then
    (List.insertionSort (rankedBefore RecEntry.score RecEntry.videoId)
      (videoIds.map fun v =>
        ⟨v, score v, "Two Tower neural embedding similarity"⟩)).take 5
  else
    (List.insertionSort (rankedBefore (fun e : RecEntry α => views e.videoId) RecEntry.videoId)
      (videoIds.map fun v => ⟨v, 0, "Cold start: popularity fallback"⟩)).take 5

/-- Modelled from the spec (§4.4): the candidate videos ranked by hybrid
score, descending, ties broken by lower videoId; the `sourceTag` attribution
("Content-based similarity" or "Item-based similarity") is kept abstract, the
spec itself recording the exact attribution rule as an open interpretation
question. -/
def hybridRanked {α : Type} [LinearOrderedField α] (score : ℕ → α)
    (sourceTag : ℕ → String) (videoIds : List ℕ) : List (RecEntry α) :=
  List.insertionSort (rankedBefore RecEntry.score RecEntry.videoId)
    (videoIds.map fun v => ⟨v, score v, sourceTag v⟩)

/-- The candidate pool for the hybrid exploration slot: videos absent from
the user's history and not already placed in the first four slots. -/
def hybridPool {α : Type} [LinearOrderedField α] (score : ℕ → α)
    (sourceTag : ℕ → String) (history : List ℕ) (videoIds : List ℕ) : List ℕ :=
  videoIds.filter fun v =>
    decide (v ∉ history ∧
      v ∉ ((hybridRanked score sourceTag videoIds).take 4).map RecEntry.videoId)

/-- Modelled from the spec (§4.4): `HybridModel.recommend(userId)`.  With no
history, all 5 slots are the popularity fallback.  Otherwise candidates are
ranked by the hybrid score; the final slot is an exploration pick — a video
outside the user's history (and not already among the first four slots, the
response being duplicate-free), chosen by the random source `pick`, with score
fixed at 0.1 and reason "Exploration".  When no such video exists the ranked
list itself fills all five slots. -/
def hybridRecommend {α : Type} [LinearOrderedField α] (score : ℕ → α)
    (sourceTag : ℕ → String) (views : ℕ → ℕ) (history : List ℕ)
    (pick : List ℕ → ℕ) (videoIds : List ℕ) : List (RecEntry α) :=
  if history = [] then
    (List.insertionSort (rankedBefore (fun e : RecEntry α => views e.videoId) RecEntry.videoId)
      (videoIds.map fun v => ⟨v, 0, "Cold start: popularity fallback"⟩)).take 5
  else if hybridPool score sourceTag history videoIds = [] then
    (hybridRanked score sourceTag videoIds).take 5
  else
    (hybridRanked score sourceTag videoIds).take 4 ++
      [⟨pick (hybridPool score sourceTag history videoIds), 1 / 10, "Exploration"⟩]

/-- Modelled from the spec (§3, §4.5): one bandit arm per video, with
`pullCount` and `totalReward`. -/
structure BanditArm : Type where
  videoId : ℕ
  pullCount : ℕ
  totalReward : ℚ
  deriving DecidableEq

/-- The average reward of an arm: `averageReward = totalReward / max(pullCount, 1)` (spec §3). -/
def averageReward (a : BanditArm) : ℚ :=
  a.totalReward / (max a.pullCount 1 : ℕ)

/-- The challenger `a` strictly beats the incumbent `b`: higher average
reward, or equal average reward and strictly lower videoId (spec §4.5: "ties
in average reward broken by lower videoId"). -/
def strictlyBetterArm (a b : BanditArm) : Bool :=
  decide (averageReward b < averageReward a ∨
    (averageReward a = averageReward b ∧ a.videoId < b.videoId))

/-- The arm an exploitation step selects from a non-empty pool: the arm with
highest `averageReward`, ties broken by lower videoId. -/
def bestArm (a : BanditArm) (l : List BanditArm) : BanditArm :=
  l.foldl (fun b c => if strictlyBetterArm c b then c else b) a

/-- Modelled from the spec (§4.5): the selection loop of
`BanditModel.chooseCandidates`.  `n` is the position of the current pick,
`k` the number of picks still to make.  With probability ε the pick is an
exploration pick — a uniformly random remaining arm, driven by the random
streams `draw` (uniform draws in `[0,1)`) and `rpick` (random indices) — with
score 0 and reason "Exploration (random)"; otherwise the remaining arm with
highest average reward is picked, with its average reward as score and reason
"Exploitation (best performing)" for the top pick and "Exploitation"
afterwards.  Selection is without replacement; with fewer arms than requested
picks, as many as available are returned. -/
def chooseGo (eps : ℚ) (draw : ℕ → ℚ) (rpick : ℕ → ℕ) :
    ℕ → ℕ → List BanditArm → List (RecEntry ℚ)
  | _, 0, _ => []
  | _, _ + 1, [] => []
  | n, k + 1, a :: rest =>
      if draw n < eps then
        ⟨((a :: rest).getD (rpick n % (a :: rest).length) a).videoId, 0,
            "Exploration (random)"⟩ ::
          chooseGo eps draw rpick (n + 1) k
            ((a :: rest).eraseIdx (rpick n % (a :: rest).length))
      else
        ⟨(bestArm a rest).videoId, averageReward (bestArm a rest),
            if n = 0 then "Exploitation (best performing)" else "Exploitation"⟩ ::
          chooseGo eps draw rpick (n + 1) k ((a :: rest).erase (bestArm a rest))

/-- Modelled from the spec (§4.5): `BanditModel.chooseCandidates(k)`. -/
def chooseCandidates (eps : ℚ) (draw : ℕ → ℚ) (rpick : ℕ → ℕ) (k : ℕ)
    (arms : List BanditArm) : List (RecEntry ℚ) :=
  chooseGo eps draw rpick 0 k arms

/-- Modelled from the spec (§3, §4.7): the bandit candidate pool the service
queries — one arm per known video, created lazily (a video with no recorded
arm contributes a fresh arm with zero pulls and zero reward). -/
def armsForVideos (armOf : ℕ → Option BanditArm) (videoIds : List ℕ) : List BanditArm :=
  videoIds.map fun v => (armOf v).getD ⟨v, 0, 0⟩

/-- Modelled from the spec (§4.7): `RecommendationService.recommend`.
Validates `algorithm ∈ {twoTower, hybrid, bandit}` (returning `none`, the
`UnknownAlgorithmError` case, otherwise), dispatches to the corresponding
model's top-5 query over all known videos, and pairs the entries with the
algorithm's human label. -/
def recommend (score : ℕ → ℚ) (sourceTag : ℕ → String) (views : ℕ → ℕ)
    (fitted hasUserEmbedding : Bool) (history : List ℕ) (pick : List ℕ → ℕ)
    (eps : ℚ) (draw : ℕ → ℚ) (rpick : ℕ → ℕ) (armOf : ℕ → Option BanditArm)
    (algorithm : String) (videoIds : List ℕ) : Option (List (RecEntry ℚ) × String) :=
  if algorithm = "twoTower" then
    some (twoTowerRecommend fitted hasUserEmbedding score views videoIds, "Two Tower")
  else if algorithm = "hybrid" then
    some (hybridRecommend score sourceTag views history pick videoIds,
      "Hybrid (Item-based + Content-based)")
  else if algorithm = "bandit" then
    some (chooseCandidates eps draw rpick 5 (armsForVideos armOf videoIds),
      "Multi-Armed Bandit (Epsilon-Greedy)")
  else none

/-! ## Similarity scoring (TwoTower / Hybrid), over the reals -/

/-- Dot product of two content vectors over the (fixed, `d`-term) vocabulary. -/
def vecDot {d : ℕ} (a b : Fin d → ℝ) : ℝ :=
  ∑ i, a i * b i

/-- Euclidean norm of a content vector. -/
noncomputable def vecNorm {d : ℕ} (a : Fin d → ℝ) : ℝ :=
  Real.sqrt (vecDot a a)

/-- Modelled from the spec (§4.2): `ContentIndex.similarity(vecA, vecB)` —
cosine similarity, defined as 0 when either vector has zero norm (avoiding
the division by zero). -/
noncomputable def similarity {d : ℕ} (a b : Fin d → ℝ) : ℝ :=
  if vecNorm a = 0 ∨ vecNorm b = 0 then 0
  else vecDot a b / (vecNorm a * vecNorm b)

/-- Modelled from the spec (§4.3): the interaction weight
`w = watchedPercent/100 × (1.5 if liked==1 else 0.3 if liked==-1 else 1.0)`. -/
noncomputable def interactionWeight (watchedPercent : ℝ) (liked : ℤ) : ℝ :=
  watchedPercent / 100 * (if liked = 1 then 3 / 2 else if liked = -1 then 3 / 10 else 1)

/-- Modelled from the spec (§4.3): the un-normalized user embedding — the sum
of the content vectors of the interacted videos, each weighted by
`interactionWeight`.  History entries are `(videoId, watchedPercent, liked)`. -/
noncomputable def userEmbeddingRaw {d : ℕ} (vecOf : ℕ → Fin d → ℝ)
    (history : List (ℕ × ℝ × ℤ)) : Fin d → ℝ := fun i =>
  (history.map fun h => interactionWeight h.2.1 h.2.2 * vecOf h.1 i).sum

/-- Renormalization of an embedding: divide by its norm, leaving the zero
vector unchanged. -/
noncomputable def renormalize {d : ℕ} (v : Fin d → ℝ) : Fin d → ℝ :=
  if vecNorm v = 0 then v else fun i => v i / vecNorm v

/-- Modelled from the spec (§4.3): the fitted user embedding — weighted sum of
interacted videos' content vectors, renormalized. -/
noncomputable def userEmbedding {d : ℕ} (vecOf : ℕ → Fin d → ℝ)
    (history : List (ℕ × ℝ × ℤ)) : Fin d → ℝ :=
  renormalize (userEmbeddingRaw vecOf history)

/-- Modelled from the spec (§4.3): the TwoTower score of a candidate video —
cosine similarity of the user embedding and the video's content vector. -/
noncomputable def twoTowerScore {d : ℕ} (vecOf : ℕ → Fin d → ℝ)
    (history : List (ℕ × ℝ × ℤ)) (cand : ℕ) : ℝ :=
  similarity (userEmbedding vecOf history) (vecOf cand)

/-- Modelled from the spec (§4.4): the Hybrid score of a candidate video —
`Σ_{v ∈ userHistory} weight(v) × itemSimilarity(v, candidate)`, normalized by
`Σ weight(v)`, where the item-item similarity matrix holds the pairwise
content-vector cosine similarities. -/
noncomputable def hybridScore {d : ℕ} (vecOf : ℕ → Fin d → ℝ)
    (history : List (ℕ × ℝ × ℤ)) (cand : ℕ) : ℝ :=
  (history.map fun h =>
      interactionWeight h.2.1 h.2.2 * similarity (vecOf h.1) (vecOf cand)).sum /
    (history.map fun h => interactionWeight h.2.1 h.2.2).sum

/-- A content vector is componentwise non-negative (as TF-IDF weighted
vectors are). -/
def NonnegVec {d : ℕ} (a : Fin d → ℝ) : Prop :=
  ∀ i, 0 ≤ a i

/-! ## Claim theorems: client -/

/-- Claim **C1**: every `liked` value the like/dislike buttons send lies in
`{-1, 0, 1}`: the like handler sends `1`, or `0` exactly when the recorded
liked state is already `1`; the dislike handler sends `-1`, or `0` exactly
when the recorded state is already `-1`. -/
theorem c1_liked_values (st : InteractionState) (v : ℕ) :
    handleLikeSent st v ∈ ({-1, 0, 1} : Set ℤ) ∧
    handleDislikeSent st v ∈ ({-1, 0, 1} : Set ℤ) ∧
    (handleLikeSent st v = 0 ↔ likedOf st v = some 1) ∧
    (handleLikeSent st v = 1 ↔ likedOf st v ≠ some 1) ∧
    (handleDislikeSent st v = 0 ↔ likedOf st v = some (-1)) ∧
    (handleDislikeSent st v = -1 ↔ likedOf st v ≠ some (-1)) := by
  unfold handleLikeSent handleDislikeSent
  by_cases h1 : likedOf st v = some 1 <;> by_cases h2 : likedOf st v = some (-1) <;>
    simp [h1, h2]

/-- Claim **C4**: every `POST /interaction` body consists of exactly the five fields
`userId`, `videoId`, `watched_percent`, `liked`, `whenReacted` (the
`InteractionBody` structure), with both percent fields equal to
`Math.round(watchedPercent)`, which is an integer whenever the progress value
is a number. -/
theorem c4_interaction_body_shape (u v : ℕ) (l : ℤ) (wp : JSNum) :
    (sendInteractionBody u v l wp).userId = u ∧
    (sendInteractionBody u v l wp).videoId = v ∧
    (sendInteractionBody u v l wp).liked = l ∧
    (sendInteractionBody u v l wp).watched_percent = JSNum.jsRound wp ∧
    (sendInteractionBody u v l wp).whenReacted = JSNum.jsRound wp ∧
    ∀ q : ℚ, wp = JSNum.num q →
      ∃ n : ℤ, (sendInteractionBody u v l wp).watched_percent = JSNum.num (n : ℚ) ∧
        (sendInteractionBody u v l wp).whenReacted = JSNum.num (n : ℚ) := by
  refine ⟨rfl, rfl, rfl, rfl, rfl, ?_⟩
  rintro q rfl
  exact ⟨⌊q + 1 / 2⌋, rfl, rfl⟩

/-- Witness for **C4** at a concrete invocation. -/
theorem c4_interaction_body_shape_witness :
    (JSNum.num (77 / 2) = JSNum.num (77 / 2)) ∧
    ∃ n : ℤ, (sendInteractionBody 1 101 1 (JSNum.num (77 / 2))).watched_percent =
        JSNum.num (n : ℚ) ∧
      (sendInteractionBody 1 101 1 (JSNum.num (77 / 2))).whenReacted = JSNum.num (n : ℚ) :=
  ⟨rfl, (c4_interaction_body_shape 1 101 1 (JSNum.num (77 / 2))).2.2.2.2.2 (77 / 2) rfl⟩

/-- Claim **C5**: the algorithm name the client can ever put into the
`GET /recommend/{algorithm}/{userId}` path is in `{twoTower, hybrid, bandit}`:
`selectedAlgorithm` starts as `"hybrid"` and is only reassigned from the three
selector option values, and `fetchRecommendations` defaults to `"hybrid"`. -/
theorem c5_algorithm_names :
    (∀ s, SelectedAlgorithmReachable s →
      s = "twoTower" ∨ s = "hybrid" ∨ s = "bandit") ∧
    initialSelectedAlgorithm = "hybrid" ∧ defaultFetchAlgorithm = "hybrid" ∧
    ∀ alg uid, recommendPath alg uid = "/recommend/" ++ alg ++ "/" ++ toString uid := by
  refine ⟨?_, rfl, rfl, fun _ _ => rfl⟩
  intro s h
  cases h with
  | initial => exact Or.inr (Or.inl rfl)
  | selected s hmem =>
      simp only [algorithmOptionValues, List.mem_cons, List.mem_singleton,
        List.not_mem_nil, or_false] at hmem
      tauto

/-- Witness for **C5** at the concrete reachable state `"bandit"`. -/
theorem c5_algorithm_names_witness :
    "bandit" = "twoTower" ∨ "bandit" = "hybrid" ∨ "bandit" = "bandit" :=
  c5_algorithm_names.1 "bandit"
    (SelectedAlgorithmReachable.selected "bandit" (by simp [algorithmOptionValues]))

/-- Claim **C8**: `sendInteraction` updates the recorded per-video interaction state
exactly when the `POST /interaction` request succeeds: on success the entry
for the video becomes the sent `{liked, watchedPercent}` and no other video's
entry changes; on failure the whole state is unchanged. -/
theorem c8_state_update_matches_request (st : InteractionState) (v : ℕ) (l : ℤ)
    (wp : JSNum) :
    sendInteractionState st v l wp true v = some ⟨l, wp⟩ ∧
    (∀ v2, v2 ≠ v → sendInteractionState st v l wp true v2 = st v2) ∧
    sendInteractionState st v l wp false = st := by
  refine ⟨by simp [sendInteractionState], fun v2 h2 => by simp [sendInteractionState, h2], rfl⟩

/-- Witness for **C8** at a concrete state and video. -/
theorem c8_state_update_matches_request_witness :
    sendInteractionState (fun _ => none) 7 1 (JSNum.num 50) true 7 =
      some ⟨1, JSNum.num 50⟩ ∧
    sendInteractionState (fun _ => none) 7 1 (JSNum.num 50) true 3 = none ∧
    sendInteractionState (fun _ => none) 7 1 (JSNum.num 50) false = fun _ => none :=
  ⟨(c8_state_update_matches_request (fun _ => none) 7 1 (JSNum.num 50)).1,
    (c8_state_update_matches_request (fun _ => none) 7 1 (JSNum.num 50)).2.1 3
      (by decide),
    (c8_state_update_matches_request (fun _ => none) 7 1 (JSNum.num 50)).2.2⟩

/-- Claim **C9**: `fetchRecommendations` yields exactly one video object per entry
of the server response, in order; each object preserves the entry's
`videoId`, `score` and `reason`; and an entry whose stats request fails is
kept, with all statistics fields zero. -/
theorem c9_video_objects (lbl : String) (statsOf : ℕ → Option VideoStats)
    (recs : List RecResponseEntry) :
    (fetchVideoObjects lbl statsOf recs).length = recs.length ∧
    (∀ i (hi : i < recs.length),
      (fetchVideoObjects lbl statsOf recs)[i]? =
        some (buildVideoObject lbl statsOf (recs.get ⟨i, hi⟩))) ∧
    ∀ r : RecResponseEntry,
      (buildVideoObject lbl statsOf r).id = r.videoId ∧
      (buildVideoObject lbl statsOf r).score = r.score ∧
      (buildVideoObject lbl statsOf r).reason = r.reason ∧
      (statsOf r.videoId = none →
        (buildVideoObject lbl statsOf r).likes = 0 ∧
        (buildVideoObject lbl statsOf r).comments = 0 ∧
        (buildVideoObject lbl statsOf r).shares = 0 ∧
        (buildVideoObject lbl statsOf r).views = 0 ∧
        (buildVideoObject lbl statsOf r).avgWatchPercent = 0 ∧
        (buildVideoObject lbl statsOf r).completionRate = 0) := by
  refine ⟨by simp [fetchVideoObjects], ?_, ?_⟩
  · intro i hi
    rw [fetchVideoObjects, List.getElem?_map, List.getElem?_eq_getElem hi]
    simp [List.get_eq_getElem]
  · intro r
    unfold buildVideoObject
    cases h : statsOf r.videoId <;> simp [h]

/-- Witness for **C9** at a concrete response whose only stats request
fails. -/
theorem c9_video_objects_witness :
    (fetchVideoObjects "Two Tower" (fun _ => none) [⟨5, 1 / 2, "r"⟩])[0]? =
      some (buildVideoObject "Two Tower" (fun _ => none) ((⟨5, 1 / 2, "r"⟩ : RecResponseEntry))) ∧
    (buildVideoObject "Two Tower" (fun _ => none) (⟨5, 1 / 2, "r"⟩ : RecResponseEntry)).likes = 0 :=
  ⟨by
    have h := (c9_video_objects "Two Tower" (fun _ => none) [⟨5, 1 / 2, "r"⟩]).2.1 0
      (by decide)
    simpa using h,
    (((c9_video_objects "Two Tower" (fun _ => none) [⟨5, 1 / 2, "r"⟩]).2.2
      ⟨5, 1 / 2, "r"⟩).2.2.2 rfl).1⟩

/-- Claim **C10**: pressing like twice (both requests succeeding, no intervening
interaction) restores a recorded liked state of `0` or `1`, and pressing
dislike twice restores a recorded liked state of `0` or `-1`. -/
theorem c10_like_dislike_involution (st : InteractionState) (v : ℕ)
    (wp1 wp2 : JSNum) (e : InteractionEntry) (he : st v = some e) :
    (e.liked = 0 ∨ e.liked = 1 →
      likedOf (handleLikeStep (handleLikeStep st v wp1 true) v wp2 true) v =
        some e.liked) ∧
    (e.liked = 0 ∨ e.liked = -1 →
      likedOf (handleDislikeStep (handleDislikeStep st v wp1 true) v wp2 true) v =
        some e.liked) := by
  constructor
  · rintro (h | h) <;>
      simp [handleLikeStep, sendInteractionState, handleLikeSent, likedOf, he, h]
  · rintro (h | h) <;>
      simp [handleDislikeStep, sendInteractionState, handleDislikeSent, likedOf, he, h]

/-- Witness for **C10**: a video recorded as liked (`1`) returns to liked
after two like presses, and a neutral one returns to neutral after two
dislike presses. -/
theorem c10_like_dislike_involution_witness :
    likedOf
      (handleLikeStep
        (handleLikeStep (fun _ => some ⟨1, JSNum.num 0⟩) 4 (JSNum.num 10) true) 4
        (JSNum.num 20) true) 4 = some (1 : ℤ) ∧
    likedOf
      (handleDislikeStep
        (handleDislikeStep (fun _ => some ⟨0, JSNum.num 0⟩) 4 (JSNum.num 10) true) 4
        (JSNum.num 20) true) 4 = some (0 : ℤ) :=
  ⟨(c10_like_dislike_involution (fun _ => some ⟨1, JSNum.num 0⟩) 4 (JSNum.num 10)
      (JSNum.num 20) ⟨1, JSNum.num 0⟩ rfl).1 (Or.inr rfl),
    (c10_like_dislike_involution (fun _ => some ⟨0, JSNum.num 0⟩) 4 (JSNum.num 10)
      (JSNum.num 20) ⟨0, JSNum.num 0⟩ rfl).2 (Or.inl rfl)⟩

/-- Claim **C3** fails as stated: at the concrete playback state
`currentTime = 0, duration = 0` the computed progress is `NaN`
(`0/0` in JavaScript), which survives `Math.round` and is not a number in
`[0, 100]` — the code never clamps. -/
theorem c3_counterexample :
    videoProgressOf (JSNum.num 0) (JSNum.num 0) = JSNum.nan ∧
    ¬ JSNum.inPercentRange
        (JSNum.jsRound (videoProgressOf (JSNum.num 0) (JSNum.num 0))) := by
  decide

/-- Claim **C3**, amended: whenever the video element reports a positive duration
and a current time between `0` and that duration, the rounded progress value
the client sends is an integer in `[0, 100]`.  (For `duration = 0` or an
unloaded video the computed value is `NaN`/`Infinity`, not a number in
range.) -/
theorem c3_amended_progress_range (ct dur : ℚ) (hdur : 0 < dur) (h0 : 0 ≤ ct)
    (h1 : ct ≤ dur) :
    ∃ n : ℤ,
      JSNum.jsRound (videoProgressOf (JSNum.num ct) (JSNum.num dur)) =
        JSNum.num (n : ℚ) ∧
      0 ≤ n ∧ n ≤ 100 ∧
      JSNum.inPercentRange
        (JSNum.jsRound (videoProgressOf (JSNum.num ct) (JSNum.num dur))) := by
  have hne : dur ≠ 0 := ne_of_gt hdur
  have hprog : videoProgressOf (JSNum.num ct) (JSNum.num dur) =
      JSNum.num (ct / dur * 100) := by
    simp [videoProgressOf, JSNum.jsDiv, JSNum.jsMul, hne]
  have hr0 : 0 ≤ ct / dur := div_nonneg h0 hdur.le
  have hr1 : ct / dur ≤ 1 := (div_le_one hdur).2 h1
  have hx0 : 0 ≤ ct / dur * 100 := by nlinarith
  have hx1 : ct / dur * 100 ≤ 100 := by nlinarith
  have hfl0 : (0 : ℤ) ≤ ⌊ct / dur * 100 + 1 / 2⌋ := by
    rw [Int.le_floor]
    push_cast
    linarith
  have hfl1 : ⌊ct / dur * 100 + 1 / 2⌋ ≤ 100 := by
    have : ⌊ct / dur * 100 + 1 / 2⌋ < 101 := by
      rw [Int.floor_lt]
      push_cast
      linarith
    omega
  refine ⟨⌊ct / dur * 100 + 1 / 2⌋, ?_, hfl0, hfl1, ?_⟩
  · rw [hprog]
    rfl
  · rw [hprog]
    show 0 ≤ ((⌊ct / dur * 100 + 1 / 2⌋ : ℤ) : ℚ) ∧
      ((⌊ct / dur * 100 + 1 / 2⌋ : ℤ) : ℚ) ≤ 100
    exact ⟨by exact_mod_cast hfl0, by exact_mod_cast hfl1⟩

/-- Witness for **C3 (amended)** at the concrete playback state
`currentTime = 1, duration = 2`. -/
theorem c3_amended_progress_range_witness :
    ∃ n : ℤ,
      JSNum.jsRound (videoProgressOf (JSNum.num 1) (JSNum.num 2)) =
        JSNum.num (n : ℚ) ∧
      0 ≤ n ∧ n ≤ 100 ∧
      JSNum.inPercentRange
        (JSNum.jsRound (videoProgressOf (JSNum.num 1) (JSNum.num 2))) :=
  c3_amended_progress_range 1 2 (by norm_num) (by norm_num) (by norm_num)

/-! ## Ranking lemmas -/

lemma rankedBefore_refl {α β : Type} [LinearOrder α] (s : β → α) (i : β → ℕ)
    (a : β) : rankedBefore s i a a :=
  Or.inr ⟨rfl, le_refl _⟩

lemma rankedBefore_trans {α β : Type} [LinearOrder α] {s : β → α} {i : β → ℕ}
    {a b c : β} (h1 : rankedBefore s i a b) (h2 : rankedBefore s i b c) :
    rankedBefore s i a c :=
  IsTrans.trans a b c h1 h2

lemma rankedBefore_antisymm_ids {α β : Type} [LinearOrder α] {s : β → α}
    {i : β → ℕ} {a b : β} (h1 : rankedBefore s i a b) (h2 : rankedBefore s i b a) :
    i a = i b := by
  unfold rankedBefore at h1 h2
  rcases h1 with h1 | ⟨e1, le1⟩ <;> rcases h2 with h2 | ⟨e2, le2⟩
  · exact absurd h1 (lt_asymm h2)
  · exact absurd h1 (e2 ▸ lt_irrefl _)
  · exact absurd h2 (e1 ▸ lt_irrefl _)
  · exact le_antisymm le1 le2

lemma eq_of_mem_nodup_ids {β : Type} (i : β → ℕ) (l : List β)
    (hn : (l.map i).Nodup) {x y : β} (hx : x ∈ l) (hy : y ∈ l) (hxy : i x = i y) :
    x = y :=
  List.inj_on_of_nodup_map hn hx hy hxy

lemma eq_of_perm_sorted_nodup_ids {α β : Type} [LinearOrder α] (s : β → α)
    (i : β → ℕ) :
    ∀ (l1 l2 : List β), List.Perm l1 l2 → l1.Sorted (rankedBefore s i) →
      l2.Sorted (rankedBefore s i) → (l1.map i).Nodup → l1 = l2 := by
  intro l1
  induction l1 with
  | nil => intro l2 hp _ _ _; exact (hp.symm.eq_nil).symm ▸ rfl
  | cons a t1 ih =>
      intro l2 hp hs1 hs2 hn
      cases l2 with
      | nil => exact absurd hp.eq_nil (by simp)
      | cons b t2 =>
          have hab : a = b := by
            by_contra hne
            have ha2 : a ∈ t2 := by
              rcases List.mem_cons.1 (hp.subset (List.mem_cons_self a t1)) with h | h
              · exact absurd h hne
              · exact h
            have hb1 : b ∈ t1 := by
              rcases List.mem_cons.1 (hp.symm.subset (List.mem_cons_self b t2)) with h | h
              · exact absurd h.symm hne
              · exact h
            have hrab : rankedBefore s i a b :=
              List.rel_of_sorted_cons hs1 b hb1
            have hrba : rankedBefore s i b a :=
              List.rel_of_sorted_cons hs2 a ha2
            have hid : i a = i b := rankedBefore_antisymm_ids hrab hrba
            have hc : i a ∉ t1.map i := (List.nodup_cons.1 hn).1
            exact hc (hid ▸ List.mem_map_of_mem i hb1)
          subst hab
          have ht : t1 = t2 :=
            ih t2 hp.cons_inv hs1.of_cons hs2.of_cons (List.nodup_cons.1 hn).2
          rw [ht]

/-! ## Bandit selection lemmas -/

lemma strictlyBetterArm_ranked {a b : BanditArm} (h : strictlyBetterArm a b = true) :
    rankedBefore averageReward BanditArm.videoId a b := by
  rw [strictlyBetterArm, decide_eq_true_iff] at h
  rcases h with h | ⟨he, hi⟩
  · exact Or.inl h
  · exact Or.inr ⟨he, le_of_lt hi⟩

lemma strictlyBetterArm_not_ranked {a b : BanditArm}
    (h : strictlyBetterArm a b = false) :
    rankedBefore averageReward BanditArm.videoId b a := by
  rw [strictlyBetterArm, decide_eq_false_iff_not] at h
  push_neg at h
  rcases lt_or_eq_of_le h.1 with hlt | heq
  · exact Or.inl hlt
  · exact Or.inr ⟨heq.symm, h.2 heq⟩

lemma bestArm_mem (a : BanditArm) (l : List BanditArm) : bestArm a l ∈ a :: l := by
  induction l generalizing a with
  | nil => simp [bestArm]
  | cons c l ih =>
      have hstep : bestArm a (c :: l) =
          bestArm (if strictlyBetterArm c a then c else a) l := rfl
      rw [hstep]
      rcases List.mem_cons.1 (ih (if strictlyBetterArm c a then c else a)) with h | h
      · rw [h]
        split
        · exact List.mem_cons_of_mem _ (List.mem_cons_self _ _)
        · exact List.mem_cons_self _ _
      · exact List.mem_cons_of_mem _ (List.mem_cons_of_mem _ h)

lemma bestArm_best (a : BanditArm) (l : List BanditArm) :
    ∀ x ∈ a :: l, rankedBefore averageReward BanditArm.videoId (bestArm a l) x := by
  induction l generalizing a with
  | nil =>
      intro x hx
      rw [List.mem_singleton.1 hx]
      exact rankedBefore_refl _ _ _
  | cons c l ih =>
      intro x hx
      have hstep : bestArm a (c :: l) =
          bestArm (if strictlyBetterArm c a then c else a) l := rfl
      have hfa : rankedBefore averageReward BanditArm.videoId
          (if strictlyBetterArm c a then c else a) a := by
        cases hsb : strictlyBetterArm c a with
        | true => simpa [hsb] using strictlyBetterArm_ranked hsb
        | false => simpa [hsb] using rankedBefore_refl averageReward BanditArm.videoId a
      have hfc : rankedBefore averageReward BanditArm.videoId
          (if strictlyBetterArm c a then c else a) c := by
        cases hsb : strictlyBetterArm c a with
        | true => simpa [hsb] using rankedBefore_refl averageReward BanditArm.videoId c
        | false => simpa [hsb] using strictlyBetterArm_not_ranked hsb
      have hbf : rankedBefore averageReward BanditArm.videoId
          (bestArm a (c :: l)) (if strictlyBetterArm c a then c else a) := by
        rw [hstep]
        exact ih _ _ (List.mem_cons_self _ _)
      rcases List.mem_cons.1 hx with rfl | hx
      · exact rankedBefore_trans hbf hfa
      rcases List.mem_cons.1 hx with rfl | hx
      · exact rankedBefore_trans hbf hfc
      · rw [hstep]
        exact ih _ _ (List.mem_cons_of_mem _ hx)

lemma insertionSort_cons_bestArm (a : BanditArm) (rest : List BanditArm)
    (hn : ((a :: rest).map BanditArm.videoId).Nodup) :
    List.insertionSort (rankedBefore averageReward BanditArm.videoId) (a :: rest) =
      bestArm a rest ::
        List.insertionSort (rankedBefore averageReward BanditArm.videoId)
          ((a :: rest).erase (bestArm a rest)) := by
  apply eq_of_perm_sorted_nodup_ids averageReward BanditArm.videoId
  · have h1 : List.Perm
        (List.insertionSort (rankedBefore averageReward BanditArm.videoId) (a :: rest))
        (a :: rest) := List.perm_insertionSort _ _
    have h2 : List.Perm (a :: rest)
        (bestArm a rest :: (a :: rest).erase (bestArm a rest)) :=
      List.perm_cons_erase (bestArm_mem a rest)
    have h3 : List.Perm ((a :: rest).erase (bestArm a rest))
        (List.insertionSort (rankedBefore averageReward BanditArm.videoId)
          ((a :: rest).erase (bestArm a rest))) :=
      (List.perm_insertionSort _ _).symm
    exact h1.trans (h2.trans (h3.cons _))
  · exact List.sorted_insertionSort _ _
  · rw [List.sorted_cons]
    refine ⟨?_, List.sorted_insertionSort _ _⟩
    intro b hb
    have hb2 : b ∈ (a :: rest).erase (bestArm a rest) :=
      (List.perm_insertionSort _ _).subset hb
    exact bestArm_best a rest b ((List.erase_sublist _ _).subset hb2)
  · have hperm : List.Perm
        ((List.insertionSort (rankedBefore averageReward BanditArm.videoId)
          (a :: rest)).map BanditArm.videoId)
        ((a :: rest).map BanditArm.videoId) :=
      (List.perm_insertionSort _ _).map _
    exact hperm.nodup_iff.2 hn

/-- The entries an uninterrupted run of exploitation picks produces from a
pool already in ranked order, the pick at position `0` being labelled as the
best performing one. -/
def exploitPicks : ℕ → List BanditArm → List (RecEntry ℚ)
  | _, [] => []
  | n, a :: t =>
      ⟨a.videoId, averageReward a,
          if n = 0 then "Exploitation (best performing)" else "Exploitation"⟩ ::
        exploitPicks (n + 1) t

lemma chooseGo_eps0 (draw : ℕ → ℚ) (rpick : ℕ → ℕ) (h0 : ∀ n, 0 ≤ draw n) :
    ∀ (k : ℕ) (arms : List BanditArm) (n : ℕ), ((arms.map BanditArm.videoId)).Nodup →
      chooseGo 0 draw rpick n k arms =
        exploitPicks n
          ((List.insertionSort (rankedBefore averageReward BanditArm.videoId)
            arms).take k) := by
  intro k
  induction k with
  | zero => intro arms n _; simp [chooseGo, exploitPicks]
  | succ k ih =>
      intro arms n hn
      cases arms with
      | nil => simp [chooseGo, exploitPicks]
      | cons a rest =>
          have hguard : ¬ draw n < 0 := not_lt.2 (h0 n)
          rw [chooseGo, if_neg hguard, insertionSort_cons_bestArm a rest hn,
            List.take_succ_cons, exploitPicks]
          have hsub : (((a :: rest).erase (bestArm a rest)).map BanditArm.videoId).Sublist
              ((a :: rest).map BanditArm.videoId) :=
            (List.erase_sublist _ _).map _
          rw [ih ((a :: rest).erase (bestArm a rest)) (n + 1)
            (List.Nodup.sublist hsub hn)]

lemma chooseGo_length (eps : ℚ) (draw : ℕ → ℚ) (rpick : ℕ → ℕ) :
    ∀ (k : ℕ) (arms : List BanditArm) (n : ℕ),
      (chooseGo eps draw rpick n k arms).length = min k arms.length := by
  intro k
  induction k with
  | zero => intro arms n; simp [chooseGo]
  | succ k ih =>
      intro arms n
      cases arms with
      | nil => simp [chooseGo]
      | cons a rest =>
          rw [chooseGo]
          split
          · have hlt : rpick n % (a :: rest).length < (a :: rest).length :=
              Nat.mod_lt _ (by simp)
            rw [List.length_cons, ih, List.length_eraseIdx, if_pos hlt]
            simp only [List.length_cons]
            omega
          · rw [List.length_cons, ih,
              List.length_erase_of_mem (bestArm_mem a rest)]
            simp only [List.length_cons]
            omega

lemma chooseGo_eps1 (draw : ℕ → ℚ) (rpick : ℕ → ℕ) (h1 : ∀ n, draw n < 1) :
    ∀ (k : ℕ) (arms : List BanditArm) (n : ℕ),
      ∀ e ∈ chooseGo 1 draw rpick n k arms, e.reason = "Exploration (random)" := by
  intro k
  induction k with
  | zero => intro arms n e he; simp [chooseGo] at he
  | succ k ih =>
      intro arms n e he
      cases arms with
      | nil => simp [chooseGo] at he
      | cons a rest =>
          rw [chooseGo, if_pos (h1 n)] at he
          rcases List.mem_cons.1 he with rfl | he
          · rfl
          · exact ih _ (n + 1) e he

/-! ## Claim theorem: bandit epsilon behaviour (C7) -/

/-- Claim **C7**: with ε = 0 (and uniform draws in `[0,1)`), `chooseCandidates` is
deterministic — independent of both random streams — and returns the `k` arms
of highest `averageReward` in descending order, ties broken by lower videoId
(the take-`k` prefix of the ranked arm list); with ε = 1 every choice is an
exploration pick. -/
theorem c7_bandit_epsilon (draw : ℕ → ℚ) (rpick : ℕ → ℕ) (k : ℕ)
    (arms : List BanditArm) (h0 : ∀ n, 0 ≤ draw n) (h1 : ∀ n, draw n < 1)
    (hn : (arms.map BanditArm.videoId).Nodup) :
    chooseCandidates 0 draw rpick k arms =
      exploitPicks 0
        ((List.insertionSort (rankedBefore averageReward BanditArm.videoId)
          arms).take k) ∧
    ∀ e ∈ chooseCandidates 1 draw rpick k arms, e.reason = "Exploration (random)" :=
  ⟨chooseGo_eps0 draw rpick h0 k arms 0 hn,
    fun e he => chooseGo_eps1 draw rpick h1 k arms 0 e he⟩

/-- Witness for **C7**, the specification's own scenario: arms with average
rewards 0.8 (videoId 1) and 0.5 (videoId 2), ε = 0, `chooseCandidates 2`
returns them best-first; and with ε = 1 both picks are exploration picks. -/
theorem c7_bandit_epsilon_witness :
    chooseCandidates 0 (fun _ => 0) (fun _ => 0) 2 [⟨2, 2, 1⟩, ⟨1, 5, 4⟩] =
      exploitPicks 0
        ((List.insertionSort (rankedBefore averageReward BanditArm.videoId)
          [⟨2, 2, 1⟩, ⟨1, 5, 4⟩]).take 2) ∧
    ∀ e ∈ chooseCandidates 1 (fun _ => 0) (fun _ => 0) 2 [⟨2, 2, 1⟩, ⟨1, 5, 4⟩],
      e.reason = "Exploration (random)" :=
  c7_bandit_epsilon (fun _ => 0) (fun _ => 0) 2 [⟨2, 2, 1⟩, ⟨1, 5, 4⟩]
    (fun _ => le_refl 0) (fun _ => zero_lt_one) (by decide)

/-! ## Response-size and distinctness lemmas (C2) -/

lemma ids_sort_perm {α : Type} (r : RecEntry α → RecEntry α → Prop)
    [DecidableRel r] (mk : ℕ → RecEntry α) (hmk : ∀ v, (mk v).videoId = v)
    (vids : List ℕ) :
    List.Perm ((List.insertionSort r (vids.map mk)).map RecEntry.videoId) vids := by
  have hperm := (List.perm_insertionSort r (vids.map mk)).map RecEntry.videoId
  rw [List.map_map] at hperm
  have hfun : RecEntry.videoId ∘ mk = id := funext hmk
  rwa [hfun, List.map_id] at hperm

lemma twoTowerRecommend_length {α : Type} [LinearOrderedField α]
    (fitted hasUserEmbedding : Bool) (score : ℕ → α) (views : ℕ → ℕ)
    (vids : List ℕ) :
    (twoTowerRecommend fitted hasUserEmbedding score views vids).length =
      min 5 vids.length := by
  unfold twoTowerRecommend
  split <;>
    rw [List.length_take, (List.perm_insertionSort _ _).length_eq, List.length_map]

lemma twoTowerRecommend_nodup {α : Type} [LinearOrderedField α]
    (fitted hasUserEmbedding : Bool) (score : ℕ → α) (views : ℕ → ℕ)
    (vids : List ℕ) (hn : vids.Nodup) :
    ((twoTowerRecommend fitted hasUserEmbedding score views vids).map
      RecEntry.videoId).Nodup := by
  unfold twoTowerRecommend
  split <;>
    (rw [List.map_take]
     exact List.Nodup.sublist (List.take_sublist _ _)
       ((ids_sort_perm _ _ (fun _ => rfl) vids).nodup_iff.2 hn))

lemma five_le_of_hybridPool_ne_nil {α : Type} [LinearOrderedField α]
    (score : ℕ → α) (sourceTag : ℕ → String) (history : List ℕ) (vids : List ℕ)
    (h : hybridPool score sourceTag history vids ≠ []) : 5 ≤ vids.length := by
  by_contra hlt
  push_neg at hlt
  obtain ⟨v, hv⟩ := List.exists_mem_of_ne_nil _ h
  rw [hybridPool, List.mem_filter, decide_eq_true_iff] at hv
  apply hv.2.2
  have hlen : (hybridRanked score sourceTag vids).length ≤ 4 := by
    rw [hybridRanked, (List.perm_insertionSort _ _).length_eq, List.length_map]
    omega
  rw [List.take_of_length_le hlen, hybridRanked]
  exact (ids_sort_perm _ _ (fun _ => rfl) vids).symm.subset hv.1

lemma hybridRecommend_length {α : Type} [LinearOrderedField α] (score : ℕ → α)
    (sourceTag : ℕ → String) (views : ℕ → ℕ) (history : List ℕ)
    (pick : List ℕ → ℕ) (vids : List ℕ) :
    (hybridRecommend score sourceTag views history pick vids).length =
      min 5 vids.length := by
  unfold hybridRecommend
  split
  · rw [List.length_take, (List.perm_insertionSort _ _).length_eq, List.length_map]
  · split
    · rw [hybridRanked, List.length_take, (List.perm_insertionSort _ _).length_eq,
        List.length_map]
    · rename_i hne
      have h5 := five_le_of_hybridPool_ne_nil score sourceTag history vids hne
      rw [List.length_append, List.length_take, hybridRanked,
        (List.perm_insertionSort _ _).length_eq, List.length_map,
        List.length_singleton]
      omega

lemma hybridRecommend_nodup {α : Type} [LinearOrderedField α] (score : ℕ → α)
    (sourceTag : ℕ → String) (views : ℕ → ℕ) (history : List ℕ)
    (pick : List ℕ → ℕ) (vids : List ℕ) (hn : vids.Nodup)
    (hpick : ∀ l : List ℕ, l ≠ [] → pick l ∈ l) :
    ((hybridRecommend score sourceTag views history pick vids).map
      RecEntry.videoId).Nodup := by
  unfold hybridRecommend
  split
  · rw [List.map_take]
    exact List.Nodup.sublist (List.take_sublist _ _)
      ((ids_sort_perm _ _ (fun _ => rfl) vids).nodup_iff.2 hn)
  · split
    · rw [hybridRanked, List.map_take]
      exact List.Nodup.sublist (List.take_sublist _ _)
        ((ids_sort_perm _ _ (fun _ => rfl) vids).nodup_iff.2 hn)
    · rename_i hne
      rw [List.map_append, List.map_cons, List.map_nil, List.nodup_append]
      refine ⟨?_, List.nodup_singleton _, ?_⟩
      · rw [hybridRanked, List.map_take]
        exact List.Nodup.sublist (List.take_sublist _ _)
          ((ids_sort_perm _ _ (fun _ => rfl) vids).nodup_iff.2 hn)
      · intro x hx hx2
        rw [List.mem_singleton] at hx2
        subst hx2
        have hp := hpick _ hne
        rw [hybridPool, List.mem_filter, decide_eq_true_iff] at hp
        exact hp.2.2 hx

lemma banditCandidates_length (eps : ℚ) (draw : ℕ → ℚ) (rpick : ℕ → ℕ)
    (armOf : ℕ → Option BanditArm) (vids : List ℕ) :
    (chooseCandidates eps draw rpick 5 (armsForVideos armOf vids)).length =
      min 5 vids.length := by
  rw [chooseCandidates, chooseGo_length, armsForVideos, List.length_map]

/-- Claim **C2**: for every user state and every algorithm in
`{twoTower, hybrid, bandit}`, `recommend` answers (no
`UnknownAlgorithmError`) with exactly `min 5 #videos` entries — 5 when at
least 5 videos exist, all videos otherwise — and for the TwoTower and Hybrid
algorithms the videoIds within one response are pairwise distinct. -/
theorem c2_recommend_size_and_distinct (score : ℕ → ℚ) (sourceTag : ℕ → String)
    (views : ℕ → ℕ) (fitted hasUserEmbedding : Bool) (history : List ℕ)
    (pick : List ℕ → ℕ) (eps : ℚ) (draw : ℕ → ℚ) (rpick : ℕ → ℕ)
    (armOf : ℕ → Option BanditArm) (vids : List ℕ) (hn : vids.Nodup)
    (hpick : ∀ l : List ℕ, l ≠ [] → pick l ∈ l) :
    ∀ alg ∈ ["twoTower", "hybrid", "bandit"],
      ∃ res : List (RecEntry ℚ) × String,
        recommend score sourceTag views fitted hasUserEmbedding history pick eps
          draw rpick armOf alg vids = some res ∧
        res.1.length = min 5 vids.length ∧
        ((alg = "twoTower" ∨ alg = "hybrid") →
          (res.1.map RecEntry.videoId).Nodup) := by
  intro alg halg
  simp only [List.mem_cons, List.not_mem_nil, or_false] at halg
  rcases halg with rfl | rfl | rfl
  · refine ⟨(twoTowerRecommend fitted hasUserEmbedding score views vids,
      "Two Tower"), ?_, ?_, ?_⟩
    · rw [recommend, if_pos rfl]
    · exact twoTowerRecommend_length fitted hasUserEmbedding score views vids
    · intro _
      exact twoTowerRecommend_nodup fitted hasUserEmbedding score views vids hn
  · refine ⟨(hybridRecommend score sourceTag views history pick vids,
      "Hybrid (Item-based + Content-based)"), ?_, ?_, ?_⟩
    · rw [recommend, if_neg (by decide), if_pos rfl]
    · exact hybridRecommend_length score sourceTag views history pick vids
    · intro _
      exact hybridRecommend_nodup score sourceTag views history pick vids hn hpick
  · refine ⟨(chooseCandidates eps draw rpick 5 (armsForVideos armOf vids),
      "Multi-Armed Bandit (Epsilon-Greedy)"), ?_, ?_, ?_⟩
    · rw [recommend, if_neg (by decide), if_neg (by decide), if_pos rfl]
    · exact banditCandidates_length eps draw rpick armOf vids
    · intro h
      rcases h with h | h <;> exact absurd h (by decide)

/-- Witness for **C2** with six distinct videos and the hybrid algorithm. -/
theorem c2_recommend_size_and_distinct_witness :
    ∃ res : List (RecEntry ℚ) × String,
      recommend (fun _ => 0) (fun _ => "tag") (fun _ => 0) true true []
        (fun l => l.headD 0) 0 (fun _ => 0) (fun _ => 0) (fun _ => none)
        "hybrid" [1, 2, 3, 4, 5, 6] = some res ∧
      res.1.length = min 5 ([1, 2, 3, 4, 5, 6] : List ℕ).length ∧
      (("hybrid" = "twoTower" ∨ "hybrid" = "hybrid") →
        (res.1.map RecEntry.videoId).Nodup) :=
  c2_recommend_size_and_distinct (fun _ => 0) (fun _ => "tag") (fun _ => 0)
    true true [] (fun l => l.headD 0) 0 (fun _ => 0) (fun _ => 0) (fun _ => none)
    [1, 2, 3, 4, 5, 6] (by decide)
    (fun l hl => by
      cases l with
      | nil => exact absurd rfl hl
      | cons a t => exact List.mem_cons_self a t)
    "hybrid" (by simp)

/-! ## Cosine similarity range lemmas (C6) -/

lemma vecDot_self_nonneg {d : ℕ} (a : Fin d → ℝ) : 0 ≤ vecDot a a :=
  Finset.sum_nonneg fun i _ => mul_self_nonneg (a i)

lemma vecNorm_nonneg {d : ℕ} (a : Fin d → ℝ) : 0 ≤ vecNorm a :=
  Real.sqrt_nonneg _

lemma vecDot_nonneg {d : ℕ} {a b : Fin d → ℝ} (ha : NonnegVec a)
    (hb : NonnegVec b) : 0 ≤ vecDot a b :=
  Finset.sum_nonneg fun i _ => mul_nonneg (ha i) (hb i)

lemma vecDot_le_norms {d : ℕ} (a b : Fin d → ℝ) :
    vecDot a b ≤ vecNorm a * vecNorm b := by
  have hcs : (vecDot a b) ^ 2 ≤ vecDot a a * vecDot b b := by
    have h := Finset.sum_mul_sq_le_sq_mul_sq Finset.univ a b
    simp only [pow_two] at h ⊢
    simpa [vecDot] using h
  calc vecDot a b ≤ |vecDot a b| := le_abs_self _
    _ = Real.sqrt ((vecDot a b) ^ 2) := (Real.sqrt_sq_eq_abs _).symm
    _ ≤ Real.sqrt (vecDot a a * vecDot b b) := Real.sqrt_le_sqrt hcs
    _ = vecNorm a * vecNorm b := by
        rw [vecNorm, vecNorm, ← Real.sqrt_mul (vecDot_self_nonneg a)]

lemma similarity_nonneg_le_one {d : ℕ} {a b : Fin d → ℝ} (ha : NonnegVec a)
    (hb : NonnegVec b) : 0 ≤ similarity a b ∧ similarity a b ≤ 1 := by
  unfold similarity
  split
  · exact ⟨le_refl 0, zero_le_one⟩
  · rename_i h
    push_neg at h
    have hna : 0 < vecNorm a := lt_of_le_of_ne (vecNorm_nonneg a) (Ne.symm h.1)
    have hnb : 0 < vecNorm b := lt_of_le_of_ne (vecNorm_nonneg b) (Ne.symm h.2)
    constructor
    · exact div_nonneg (vecDot_nonneg ha hb) (mul_nonneg hna.le hnb.le)
    · rw [div_le_one (mul_pos hna hnb)]
      exact vecDot_le_norms a b

lemma interactionWeight_nonneg (wp : ℝ) (l : ℤ) (h : 0 ≤ wp) :
    0 ≤ interactionWeight wp l := by
  unfold interactionWeight
  have h1 : 0 ≤ wp / 100 := by positivity
  split_ifs <;> exact mul_nonneg h1 (by norm_num)

lemma userEmbeddingRaw_nonneg {d : ℕ} (vecOf : ℕ → Fin d → ℝ)
    (hist : List (ℕ × ℝ × ℤ)) (hvec : ∀ v, NonnegVec (vecOf v))
    (hwp : ∀ h ∈ hist, 0 ≤ h.2.1) : NonnegVec (userEmbeddingRaw vecOf hist) := by
  intro i
  apply List.sum_nonneg
  intro x hx
  rw [List.mem_map] at hx
  obtain ⟨h, hh, rfl⟩ := hx
  exact mul_nonneg (interactionWeight_nonneg _ _ (hwp h hh)) (hvec h.1 i)

lemma renormalize_nonneg {d : ℕ} (v : Fin d → ℝ) (hv : NonnegVec v) :
    NonnegVec (renormalize v) := by
  unfold renormalize
  split
  · exact hv
  · intro i
    exact div_nonneg (hv i) (vecNorm_nonneg v)

lemma twoTowerScore_nonneg_le_one {d : ℕ} (vecOf : ℕ → Fin d → ℝ)
    (hist : List (ℕ × ℝ × ℤ)) (cand : ℕ) (hvec : ∀ v, NonnegVec (vecOf v))
    (hwp : ∀ h ∈ hist, 0 ≤ h.2.1) :
    0 ≤ twoTowerScore vecOf hist cand ∧ twoTowerScore vecOf hist cand ≤ 1 :=
  similarity_nonneg_le_one
    (renormalize_nonneg _ (userEmbeddingRaw_nonneg vecOf hist hvec hwp))
    (hvec cand)

lemma hybridScore_nonneg_le_one {d : ℕ} (vecOf : ℕ → Fin d → ℝ)
    (hist : List (ℕ × ℝ × ℤ)) (cand : ℕ) (hvec : ∀ v, NonnegVec (vecOf v))
    (hwp : ∀ h ∈ hist, 0 ≤ h.2.1) :
    0 ≤ hybridScore vecOf hist cand ∧ hybridScore vecOf hist cand ≤ 1 := by
  unfold hybridScore
  have hterm : ∀ h ∈ hist, 0 ≤ interactionWeight h.2.1 h.2.2 :=
    fun h hh => interactionWeight_nonneg _ _ (hwp h hh)
  have hden : 0 ≤ (hist.map fun h => interactionWeight h.2.1 h.2.2).sum := by
    apply List.sum_nonneg
    intro x hx
    rw [List.mem_map] at hx
    obtain ⟨h, hh, rfl⟩ := hx
    exact hterm h hh
  have hnum : 0 ≤ (hist.map fun h =>
      interactionWeight h.2.1 h.2.2 * similarity (vecOf h.1) (vecOf cand)).sum := by
    apply List.sum_nonneg
    intro x hx
    rw [List.mem_map] at hx
    obtain ⟨h, hh, rfl⟩ := hx
    exact mul_nonneg (hterm h hh)
      (similarity_nonneg_le_one (hvec h.1) (hvec cand)).1
  have hle : (hist.map fun h =>
      interactionWeight h.2.1 h.2.2 * similarity (vecOf h.1) (vecOf cand)).sum ≤
      (hist.map fun h => interactionWeight h.2.1 h.2.2).sum := by
    apply List.sum_le_sum
    intro h hh
    exact mul_le_of_le_one_right (hterm h hh)
      (similarity_nonneg_le_one (hvec h.1) (hvec cand)).2
  exact ⟨div_nonneg hnum hden, div_le_one_of_le₀ hle hden⟩

lemma mem_of_mem_sortTake {β : Type} (r : β → β → Prop) [DecidableRel r]
    {l : List β} {k : ℕ} {e : β} (h : e ∈ (List.insertionSort r l).take k) :
    e ∈ l :=
  (List.perm_insertionSort r l).subset ((List.take_sublist _ _).subset h)

/-- Claim **C6**: cosine similarity is `0` whenever either input vector has zero
norm, and — content vectors being componentwise non-negative, as TF-IDF
weighted vectors are — every score in a TwoTower or Hybrid recommendation
response built from the similarity-derived scores lies in `[0, 1]`
(fallback scores `0` and the exploration score `0.1` included). -/
theorem c6_similarity_and_score_range {d : ℕ} (vecOf : ℕ → Fin d → ℝ)
    (hist : List (ℕ × ℝ × ℤ)) (fitted hasUserEmbedding : Bool) (views : ℕ → ℕ)
    (history : List ℕ) (pick : List ℕ → ℕ) (sourceTag : ℕ → String)
    (vids : List ℕ) (hvec : ∀ v, NonnegVec (vecOf v))
    (hwp : ∀ h ∈ hist, 0 ≤ h.2.1) :
    (∀ a b : Fin d → ℝ, vecNorm a = 0 ∨ vecNorm b = 0 → similarity a b = 0) ∧
    (∀ e ∈ twoTowerRecommend fitted hasUserEmbedding (twoTowerScore vecOf hist)
        views vids, 0 ≤ e.score ∧ e.score ≤ 1) ∧
    (∀ e ∈ hybridRecommend (hybridScore vecOf hist) sourceTag views history pick
        vids, 0 ≤ e.score ∧ e.score ≤ 1) := by
  refine ⟨?_, ?_, ?_⟩
  · intro a b h
    unfold similarity
    rw [if_pos h]
  · intro e he
    unfold twoTowerRecommend at he
    split at he
    · obtain ⟨v, _, rfl⟩ := List.mem_map.1 (mem_of_mem_sortTake _ he)
      exact twoTowerScore_nonneg_le_one vecOf hist v hvec hwp
    · obtain ⟨v, _, rfl⟩ := List.mem_map.1 (mem_of_mem_sortTake _ he)
      exact ⟨le_refl 0, zero_le_one⟩
  · intro e he
    unfold hybridRecommend at he
    split at he
    · obtain ⟨v, _, rfl⟩ := List.mem_map.1 (mem_of_mem_sortTake _ he)
      exact ⟨le_refl 0, zero_le_one⟩
    · split at he
      · rw [hybridRanked] at he
        obtain ⟨v, _, rfl⟩ := List.mem_map.1 (mem_of_mem_sortTake _ he)
        exact hybridScore_nonneg_le_one vecOf hist v hvec hwp
      · rcases List.mem_append.1 he with he4 | hex
        · rw [hybridRanked] at he4
          obtain ⟨v, _, rfl⟩ := List.mem_map.1 (mem_of_mem_sortTake _ he4)
          exact hybridScore_nonneg_le_one vecOf hist v hvec hwp
        · rw [List.mem_singleton] at hex
          subst hex
          exact ⟨by norm_num, by norm_num⟩

/-- A concrete one-dimensional all-ones content index, used by the witness
below. -/
def onesVec : ℕ → Fin 1 → ℝ := fun _ _ => 1

/-- Witness for **C6** at a one-dimensional content index with all-ones
vectors and a single interaction of full watch and a like. -/
theorem c6_similarity_and_score_range_witness :
    (∀ a b : Fin 1 → ℝ, vecNorm a = 0 ∨ vecNorm b = 0 → similarity a b = 0) ∧
    (∀ e ∈ twoTowerRecommend true true
        (twoTowerScore onesVec [(1, 1, 1)]) (fun _ => 0) [1, 2],
      0 ≤ e.score ∧ e.score ≤ 1) ∧
    (∀ e ∈ hybridRecommend (hybridScore onesVec [(1, 1, 1)])
        (fun _ => "tag") (fun _ => 0) [1] (fun l => l.headD 0) [1, 2],
      0 ≤ e.score ∧ e.score ≤ 1) :=
  c6_similarity_and_score_range onesVec [(1, 1, 1)] true true
    (fun _ => 0) [1] (fun l => l.headD 0) (fun _ => "tag") [1, 2]
    (fun _ _ => zero_le_one)
    (fun h hh => by
      rw [List.mem_singleton] at hh
      subst hh
      norm_num)
